import Mathlib

/-!
Verification of the MQTT encryption/IDS gateway pipeline
(`raspberry-pi-gateway/live_ids.py`).

Modelling conventions:
* Python `bytes` values are `List Byte` with `Byte := Fin 256`.
* Python `str` values are modelled by their UTF-8 byte sequences
  (`List Byte`); where the code decodes bytes to `str`
  (`decrypt_aes`), the model validates UTF-8 well-formedness with
  `isValidUtf8` and otherwise keeps the byte representation.  The
  character `|` is byte `124`; as an ASCII byte it never occurs
  inside a multi-byte UTF-8 sequence, so splitting the byte string at
  byte `124` agrees with splitting the decoded string at `'|'`.
* Python floats (timestamps, confidences, features) are idealized as
  rationals `ℚ`.
* The external AES library (`Crypto.Cipher.AES`, mode ECB) is given a
  full functional model of AES-128 below (FIPS-197), so that the
  decryption performed by `decrypt_aes` is a real computation, not an
  abstract inverse.
* `zlib.crc32` is given its standard reflected-polynomial definition.
-/

/-! ## Bytes and the GF(2^8) operations used by AES -/

abbrev Byte := Fin 256

def byteXor (a b : Byte) : Byte :=
  ⟨a.val ^^^ b.val, Nat.xor_lt_two_pow (n := 8) a.isLt b.isLt⟩

theorem byteXor_assoc (a b c : Byte) :
    byteXor (byteXor a b) c = byteXor a (byteXor b c) := by
  apply Fin.ext
  simp [byteXor, Nat.xor_assoc]

theorem byteXor_comm (a b : Byte) : byteXor a b = byteXor b a := by
  apply Fin.ext
  simp [byteXor, Nat.xor_comm]

instance : Std.Associative byteXor := ⟨byteXor_assoc⟩

instance : Std.Commutative byteXor := ⟨byteXor_comm⟩

theorem byteXor_zero (a : Byte) : byteXor a 0 = a := by
  apply Fin.ext
  simp [byteXor, Fin.val_zero]

theorem byteXor_cancel_left (k s : Byte) : byteXor k (byteXor k s) = s := by
  apply Fin.ext
  simp [byteXor, ← Nat.xor_assoc]

theorem zero_byteXor (a : Byte) : byteXor 0 a = a := by
  rw [byteXor_comm, byteXor_zero]

/-- Multiplication by `x` in GF(2^8) modulo the AES polynomial `x^8+x^4+x^3+x+1`. -/
def xtime (a : Byte) : Byte :=
  ⟨((a.val <<< 1) ^^^ (if 0x80 ≤ a.val then 0x1B else 0)) &&& 0xFF,
   Nat.lt_succ_of_le Nat.and_le_right⟩

theorem shiftLeft_one_xor (x y : Nat) : (x ^^^ y) <<< 1 = (x <<< 1) ^^^ (y <<< 1) := by
  apply Nat.eq_of_testBit_eq
  intro i
  simp [Nat.testBit_shiftLeft, Nat.testBit_xor, Bool.and_xor_distrib_left]

theorem msb_le (z : Nat) (h : z < 256) : 0x80 ≤ z ↔ z.testBit 7 = true := by
  rw [Nat.testBit_to_div_mod]
  simp only [decide_eq_true_eq]
  omega

theorem nat_xor_left_comm (x y z : Nat) : x ^^^ (y ^^^ z) = y ^^^ (x ^^^ z) := by
  rw [← Nat.xor_assoc, Nat.xor_comm x y, Nat.xor_assoc]

theorem if27_xor (x y : Byte) :
    (if 0x80 ≤ (x.val ^^^ y.val) then 0x1B else 0) =
      ((if 0x80 ≤ x.val then 0x1B else 0) ^^^ (if 0x80 ≤ y.val then 0x1B else 0) : Nat) := by
  have hxy : x.val ^^^ y.val < 256 := Nat.xor_lt_two_pow (n := 8) x.isLt y.isLt
  by_cases hx : 0x80 ≤ x.val <;> by_cases hy : 0x80 ≤ y.val
  · have bx := (msb_le x.val x.isLt).mp hx
    have bY := (msb_le y.val y.isLt).mp hy
    have bxy : (x.val ^^^ y.val).testBit 7 = false := by
      rw [Nat.testBit_xor, bx, bY]; rfl
    have hno : ¬ 0x80 ≤ x.val ^^^ y.val := by
      rw [msb_le _ hxy, bxy]; simp
    rw [if_neg hno, if_pos hx, if_pos hy]
    decide
  · have bx := (msb_le x.val x.isLt).mp hx
    have bY : y.val.testBit 7 = false := by
      rcases hb : y.val.testBit 7 with _ | _
      · rfl
      · exact absurd ((msb_le y.val y.isLt).mpr hb) hy
    have bxy : (x.val ^^^ y.val).testBit 7 = true := by
      rw [Nat.testBit_xor, bx, bY]; rfl
    have hyes : 0x80 ≤ x.val ^^^ y.val := (msb_le _ hxy).mpr bxy
    rw [if_pos hyes, if_pos hx, if_neg hy]
    decide
  · have bx : x.val.testBit 7 = false := by
      rcases hb : x.val.testBit 7 with _ | _
      · rfl
      · exact absurd ((msb_le x.val x.isLt).mpr hb) hx
    have bY := (msb_le y.val y.isLt).mp hy
    have bxy : (x.val ^^^ y.val).testBit 7 = true := by
      rw [Nat.testBit_xor, bx, bY]; rfl
    have hyes : 0x80 ≤ x.val ^^^ y.val := (msb_le _ hxy).mpr bxy
    rw [if_pos hyes, if_neg hx, if_pos hy]
    decide
  · have bx : x.val.testBit 7 = false := by
      rcases hb : x.val.testBit 7 with _ | _
      · rfl
      · exact absurd ((msb_le x.val x.isLt).mpr hb) hx
    have bY : y.val.testBit 7 = false := by
      rcases hb : y.val.testBit 7 with _ | _
      · rfl
      · exact absurd ((msb_le y.val y.isLt).mpr hb) hy
    have bxy : (x.val ^^^ y.val).testBit 7 = false := by
      rw [Nat.testBit_xor, bx, bY]; rfl
    have hno : ¬ 0x80 ≤ x.val ^^^ y.val := by
      rw [msb_le _ hxy, bxy]; simp
    rw [if_neg hno, if_neg hx, if_neg hy]
    decide

theorem xtime_xor (a b : Byte) : xtime (byteXor a b) = byteXor (xtime a) (xtime b) := by
  apply Fin.ext
  simp only [xtime, byteXor]
  rw [if27_xor ⟨a.val, a.isLt⟩ ⟨b.val, b.isLt⟩]
  rw [shiftLeft_one_xor, ← Nat.and_xor_distrib_right]
  congr 1
  simp [Nat.xor_assoc, Nat.xor_comm, nat_xor_left_comm]

/-- Multiplication by the GF(2^8) constants used by MixColumns and its inverse. -/
def g2 (a : Byte) : Byte := xtime a

def g3 (a : Byte) : Byte := byteXor (xtime a) a

def g9 (a : Byte) : Byte := byteXor (xtime (xtime (xtime a))) a

def g11 (a : Byte) : Byte := byteXor (xtime (xtime (xtime a))) (byteXor (xtime a) a)

def g13 (a : Byte) : Byte := byteXor (xtime (xtime (xtime a))) (byteXor (xtime (xtime a)) a)

def g14 (a : Byte) : Byte :=
  byteXor (xtime (xtime (xtime a))) (byteXor (xtime (xtime a)) (xtime a))

theorem g2_xor (x y : Byte) : g2 (byteXor x y) = byteXor (g2 x) (g2 y) := by
  simp only [g2, xtime_xor]

theorem g3_xor (x y : Byte) : g3 (byteXor x y) = byteXor (g3 x) (g3 y) := by
  simp only [g3, xtime_xor]
  ac_rfl

theorem g9_xor (x y : Byte) : g9 (byteXor x y) = byteXor (g9 x) (g9 y) := by
  simp only [g9, xtime_xor]
  ac_rfl

theorem g11_xor (x y : Byte) : g11 (byteXor x y) = byteXor (g11 x) (g11 y) := by
  simp only [g11, xtime_xor]
  ac_rfl

theorem g13_xor (x y : Byte) : g13 (byteXor x y) = byteXor (g13 x) (g13 y) := by
  simp only [g13, xtime_xor]
  ac_rfl

theorem g14_xor (x y : Byte) : g14 (byteXor x y) = byteXor (g14 x) (g14 y) := by
  simp only [g14, xtime_xor]
  ac_rfl

set_option maxRecDepth 4000 in
theorem mixK1 : ∀ x : Byte,
    byteXor (g14 (g2 x)) (byteXor (g11 x) (byteXor (g13 x) (g9 (g3 x)))) = x := by
  decide

set_option maxRecDepth 4000 in
theorem mixK2 : ∀ x : Byte,
    byteXor (g14 (g3 x)) (byteXor (g11 (g2 x)) (byteXor (g13 x) (g9 x))) = 0 := by
  decide

set_option maxRecDepth 4000 in
theorem mixK3 : ∀ x : Byte,
    byteXor (g14 x) (byteXor (g11 (g3 x)) (byteXor (g13 (g2 x)) (g9 x))) = 0 := by
  decide

set_option maxRecDepth 4000 in
theorem mixK4 : ∀ x : Byte,
    byteXor (g14 x) (byteXor (g11 x) (byteXor (g13 (g3 x)) (g9 (g2 x)))) = 0 := by
  decide

/-! ## The AES S-box (FIPS-197, figure 7) and its inverse (figure 14) -/

/-- The AES substitution table. -/
def sboxTable : List Byte :=
  [99, 124, 119, 123, 242, 107, 111, 197, 48, 1, 103, 43, 254, 215, 171, 118,
   202, 130, 201, 125, 250, 89, 71, 240, 173, 212, 162, 175, 156, 164, 114, 192,
   183, 253, 147, 38, 54, 63, 247, 204, 52, 165, 229, 241, 113, 216, 49, 21,
   4, 199, 35, 195, 24, 150, 5, 154, 7, 18, 128, 226, 235, 39, 178, 117,
   9, 131, 44, 26, 27, 110, 90, 160, 82, 59, 214, 179, 41, 227, 47, 132,
   83, 209, 0, 237, 32, 252, 177, 91, 106, 203, 190, 57, 74, 76, 88, 207,
   208, 239, 170, 251, 67, 77, 51, 133, 69, 249, 2, 127, 80, 60, 159, 168,
   81, 163, 64, 143, 146, 157, 56, 245, 188, 182, 218, 33, 16, 255, 243, 210,
   205, 12, 19, 236, 95, 151, 68, 23, 196, 167, 126, 61, 100, 93, 25, 115,
   96, 129, 79, 220, 34, 42, 144, 136, 70, 238, 184, 20, 222, 94, 11, 219,
   224, 50, 58, 10, 73, 6, 36, 92, 194, 211, 172, 98, 145, 149, 228, 121,
   231, 200, 55, 109, 141, 213, 78, 169, 108, 86, 244, 234, 101, 122, 174, 8,
   186, 120, 37, 46, 28, 166, 180, 198, 232, 221, 116, 31, 75, 189, 139, 138,
   112, 62, 181, 102, 72, 3, 246, 14, 97, 53, 87, 185, 134, 193, 29, 158,
   225, 248, 152, 17, 105, 217, 142, 148, 155, 30, 135, 233, 206, 85, 40, 223,
   140, 161, 137, 13, 191, 230, 66, 104, 65, 153, 45, 15, 176, 84, 187, 22]

/-- The inverse AES substitution table. -/
def invSboxTable : List Byte :=
  [82, 9, 106, 213, 48, 54, 165, 56, 191, 64, 163, 158, 129, 243, 215, 251,
   124, 227, 57, 130, 155, 47, 255, 135, 52, 142, 67, 68, 196, 222, 233, 203,
   84, 123, 148, 50, 166, 194, 35, 61, 238, 76, 149, 11, 66, 250, 195, 78,
   8, 46, 161, 102, 40, 217, 36, 178, 118, 91, 162, 73, 109, 139, 209, 37,
   114, 248, 246, 100, 134, 104, 152, 22, 212, 164, 92, 204, 93, 101, 182, 146,
   108, 112, 72, 80, 253, 237, 185, 218, 94, 21, 70, 87, 167, 141, 157, 132,
   144, 216, 171, 0, 140, 188, 211, 10, 247, 228, 88, 5, 184, 179, 69, 6,
   208, 44, 30, 143, 202, 63, 15, 2, 193, 175, 189, 3, 1, 19, 138, 107,
   58, 145, 17, 65, 79, 103, 220, 234, 151, 242, 207, 206, 240, 180, 230, 115,
   150, 172, 116, 34, 231, 173, 53, 133, 226, 249, 55, 232, 28, 117, 223, 110,
   71, 241, 26, 113, 29, 41, 197, 137, 111, 183, 98, 14, 170, 24, 190, 27,
   252, 86, 62, 75, 198, 210, 121, 32, 154, 219, 192, 254, 120, 205, 90, 244,
   31, 221, 168, 51, 136, 7, 199, 49, 177, 18, 16, 89, 39, 128, 236, 95,
   96, 81, 127, 169, 25, 181, 74, 13, 45, 229, 122, 159, 147, 201, 156, 239,
   160, 224, 59, 77, 174, 42, 245, 176, 200, 235, 187, 60, 131, 83, 153, 97,
   23, 43, 4, 126, 186, 119, 214, 38, 225, 105, 20, 99, 85, 33, 12, 125]

def sbox (a : Byte) : Byte := sboxTable.getD a.val 0

def invSbox (a : Byte) : Byte := invSboxTable.getD a.val 0

set_option maxRecDepth 8000 in
theorem invSbox_sbox : ∀ a : Byte, invSbox (sbox a) = a := by decide

/-! ## The AES-128 state and round transformations (FIPS-197 section 5)

The 16 bytes of a block are held column-major: byte `s(r + 4*c)` is the
state entry in row `r`, column `c`. -/

structure Col where
  c0 : Byte
  c1 : Byte
  c2 : Byte
  c3 : Byte

structure Block where
  b0 : Byte
  b1 : Byte
  b2 : Byte
  b3 : Byte
  b4 : Byte
  b5 : Byte
  b6 : Byte
  b7 : Byte
  b8 : Byte
  b9 : Byte
  b10 : Byte
  b11 : Byte
  b12 : Byte
  b13 : Byte
  b14 : Byte
  b15 : Byte

def zeroBlock : Block := ⟨0,0,0,0,0,0,0,0,0,0,0,0,0,0,0,0⟩

def subBytes (s : Block) : Block :=
  ⟨sbox s.b0, sbox s.b1, sbox s.b2, sbox s.b3, sbox s.b4, sbox s.b5, sbox s.b6, sbox s.b7,
   sbox s.b8, sbox s.b9, sbox s.b10, sbox s.b11, sbox s.b12, sbox s.b13, sbox s.b14, sbox s.b15⟩

def invSubBytes (s : Block) : Block :=
  ⟨invSbox s.b0, invSbox s.b1, invSbox s.b2, invSbox s.b3,
   invSbox s.b4, invSbox s.b5, invSbox s.b6, invSbox s.b7,
   invSbox s.b8, invSbox s.b9, invSbox s.b10, invSbox s.b11,
   invSbox s.b12, invSbox s.b13, invSbox s.b14, invSbox s.b15⟩

/-- Row `r` of the state is rotated left by `r` positions. -/
def shiftRows (s : Block) : Block :=
  ⟨s.b0, s.b5, s.b10, s.b15, s.b4, s.b9, s.b14, s.b3,
   s.b8, s.b13, s.b2, s.b7, s.b12, s.b1, s.b6, s.b11⟩

/-- Row `r` of the state is rotated right by `r` positions. -/
def invShiftRows (s : Block) : Block :=
  ⟨s.b0, s.b13, s.b10, s.b7, s.b4, s.b1, s.b14, s.b11,
   s.b8, s.b5, s.b2, s.b15, s.b12, s.b9, s.b6, s.b3⟩

def mixCol (c : Col) : Col :=
  ⟨byteXor (g2 c.c0) (byteXor (g3 c.c1) (byteXor c.c2 c.c3)),
   byteXor c.c0 (byteXor (g2 c.c1) (byteXor (g3 c.c2) c.c3)),
   byteXor c.c0 (byteXor c.c1 (byteXor (g2 c.c2) (g3 c.c3))),
   byteXor (g3 c.c0) (byteXor c.c1 (byteXor c.c2 (g2 c.c3)))⟩

def invMixCol (c : Col) : Col :=
  ⟨byteXor (g14 c.c0) (byteXor (g11 c.c1) (byteXor (g13 c.c2) (g9 c.c3))),
   byteXor (g9 c.c0) (byteXor (g14 c.c1) (byteXor (g11 c.c2) (g13 c.c3))),
   byteXor (g13 c.c0) (byteXor (g9 c.c1) (byteXor (g14 c.c2) (g11 c.c3))),
   byteXor (g11 c.c0) (byteXor (g13 c.c1) (byteXor (g9 c.c2) (g14 c.c3)))⟩

def mixColumns (s : Block) : Block :=
  let d0 := mixCol ⟨s.b0, s.b1, s.b2, s.b3⟩
  let d1 := mixCol ⟨s.b4, s.b5, s.b6, s.b7⟩
  let d2 := mixCol ⟨s.b8, s.b9, s.b10, s.b11⟩
  let d3 := mixCol ⟨s.b12, s.b13, s.b14, s.b15⟩
  ⟨d0.c0, d0.c1, d0.c2, d0.c3, d1.c0, d1.c1, d1.c2, d1.c3,
   d2.c0, d2.c1, d2.c2, d2.c3, d3.c0, d3.c1, d3.c2, d3.c3⟩

def invMixColumns (s : Block) : Block :=
  let d0 := invMixCol ⟨s.b0, s.b1, s.b2, s.b3⟩
  let d1 := invMixCol ⟨s.b4, s.b5, s.b6, s.b7⟩
  let d2 := invMixCol ⟨s.b8, s.b9, s.b10, s.b11⟩
  let d3 := invMixCol ⟨s.b12, s.b13, s.b14, s.b15⟩
  ⟨d0.c0, d0.c1, d0.c2, d0.c3, d1.c0, d1.c1, d1.c2, d1.c3,
   d2.c0, d2.c1, d2.c2, d2.c3, d3.c0, d3.c1, d3.c2, d3.c3⟩

def addRoundKey (k s : Block) : Block :=
  ⟨byteXor k.b0 s.b0, byteXor k.b1 s.b1, byteXor k.b2 s.b2, byteXor k.b3 s.b3,
   byteXor k.b4 s.b4, byteXor k.b5 s.b5, byteXor k.b6 s.b6, byteXor k.b7 s.b7,
   byteXor k.b8 s.b8, byteXor k.b9 s.b9, byteXor k.b10 s.b10, byteXor k.b11 s.b11,
   byteXor k.b12 s.b12, byteXor k.b13 s.b13, byteXor k.b14 s.b14, byteXor k.b15 s.b15⟩

theorem addRoundKey_addRoundKey (k s : Block) : addRoundKey k (addRoundKey k s) = s := by
  cases s
  simp only [addRoundKey, byteXor_cancel_left]

theorem invShiftRows_shiftRows (s : Block) : invShiftRows (shiftRows s) = s := by
  cases s
  rfl

theorem invSubBytes_subBytes (s : Block) : invSubBytes (subBytes s) = s := by
  cases s
  simp only [subBytes, invSubBytes, invSbox_sbox]

theorem invMixCol_mixCol (c : Col) : invMixCol (mixCol c) = c := by
  obtain ⟨a0, a1, a2, a3⟩ := c
  simp only [mixCol, invMixCol, Col.mk.injEq]
  refine ⟨?_, ?_, ?_, ?_⟩
  · calc
      byteXor (g14 (byteXor (g2 a0) (byteXor (g3 a1) (byteXor a2 a3))))
          (byteXor (g11 (byteXor a0 (byteXor (g2 a1) (byteXor (g3 a2) a3))))
            (byteXor (g13 (byteXor a0 (byteXor a1 (byteXor (g2 a2) (g3 a3)))))
              (g9 (byteXor (g3 a0) (byteXor a1 (byteXor a2 (g2 a3)))))))
        = byteXor (byteXor (g14 (g2 a0)) (byteXor (g11 a0) (byteXor (g13 a0) (g9 (g3 a0)))))
            (byteXor (byteXor (g14 (g3 a1)) (byteXor (g11 (g2 a1)) (byteXor (g13 a1) (g9 a1))))
              (byteXor (byteXor (g14 a2) (byteXor (g11 (g3 a2)) (byteXor (g13 (g2 a2)) (g9 a2))))
                (byteXor (g14 a3) (byteXor (g11 a3) (byteXor (g13 (g3 a3)) (g9 (g2 a3))))))) := by
          simp only [g14_xor, g11_xor, g13_xor, g9_xor]
          ac_rfl
      _ = a0 := by
          rw [mixK1, mixK2, mixK3, mixK4]
          simp only [byteXor_zero, zero_byteXor]
  · calc
      byteXor (g9 (byteXor (g2 a0) (byteXor (g3 a1) (byteXor a2 a3))))
          (byteXor (g14 (byteXor a0 (byteXor (g2 a1) (byteXor (g3 a2) a3))))
            (byteXor (g11 (byteXor a0 (byteXor a1 (byteXor (g2 a2) (g3 a3)))))
              (g13 (byteXor (g3 a0) (byteXor a1 (byteXor a2 (g2 a3)))))))
        = byteXor (byteXor (g14 a0) (byteXor (g11 a0) (byteXor (g13 (g3 a0)) (g9 (g2 a0)))))
            (byteXor (byteXor (g14 (g2 a1)) (byteXor (g11 a1) (byteXor (g13 a1) (g9 (g3 a1)))))
              (byteXor (byteXor (g14 (g3 a2)) (byteXor (g11 (g2 a2)) (byteXor (g13 a2) (g9 a2))))
                (byteXor (g14 a3) (byteXor (g11 (g3 a3)) (byteXor (g13 (g2 a3)) (g9 a3)))))) := by
          simp only [g14_xor, g11_xor, g13_xor, g9_xor]
          ac_rfl
      _ = a1 := by
          rw [mixK4, mixK1, mixK2, mixK3]
          simp only [byteXor_zero, zero_byteXor]
  · calc
      byteXor (g13 (byteXor (g2 a0) (byteXor (g3 a1) (byteXor a2 a3))))
          (byteXor (g9 (byteXor a0 (byteXor (g2 a1) (byteXor (g3 a2) a3))))
            (byteXor (g14 (byteXor a0 (byteXor a1 (byteXor (g2 a2) (g3 a3)))))
              (g11 (byteXor (g3 a0) (byteXor a1 (byteXor a2 (g2 a3)))))))
        = byteXor (byteXor (g14 a0) (byteXor (g11 (g3 a0)) (byteXor (g13 (g2 a0)) (g9 a0))))
            (byteXor (byteXor (g14 a1) (byteXor (g11 a1) (byteXor (g13 (g3 a1)) (g9 (g2 a1)))))
              (byteXor (byteXor (g14 (g2 a2)) (byteXor (g11 a2) (byteXor (g13 a2) (g9 (g3 a2)))))
                (byteXor (g14 (g3 a3)) (byteXor (g11 (g2 a3)) (byteXor (g13 a3) (g9 a3)))))) := by
          simp only [g14_xor, g11_xor, g13_xor, g9_xor]
          ac_rfl
      _ = a2 := by
          rw [mixK3, mixK4, mixK1, mixK2]
          simp only [byteXor_zero, zero_byteXor]
  · calc
      byteXor (g11 (byteXor (g2 a0) (byteXor (g3 a1) (byteXor a2 a3))))
          (byteXor (g13 (byteXor a0 (byteXor (g2 a1) (byteXor (g3 a2) a3))))
            (byteXor (g9 (byteXor a0 (byteXor a1 (byteXor (g2 a2) (g3 a3)))))
              (g14 (byteXor (g3 a0) (byteXor a1 (byteXor a2 (g2 a3)))))))
        = byteXor (byteXor (g14 (g3 a0)) (byteXor (g11 (g2 a0)) (byteXor (g13 a0) (g9 a0))))
            (byteXor (byteXor (g14 a1) (byteXor (g11 (g3 a1)) (byteXor (g13 (g2 a1)) (g9 a1))))
              (byteXor (byteXor (g14 a2) (byteXor (g11 a2) (byteXor (g13 (g3 a2)) (g9 (g2 a2)))))
                (byteXor (g14 (g2 a3)) (byteXor (g11 a3) (byteXor (g13 a3) (g9 (g3 a3))))))) := by
          simp only [g14_xor, g11_xor, g13_xor, g9_xor]
          ac_rfl
      _ = a3 := by
          rw [mixK2, mixK3, mixK4, mixK1]
          simp only [byteXor_zero, zero_byteXor]

theorem col_eta (c : Col) : (⟨c.c0, c.c1, c.c2, c.c3⟩ : Col) = c := rfl

theorem invMixColumns_mixColumns (s : Block) : invMixColumns (mixColumns s) = s := by
  cases s
  simp only [mixColumns, invMixColumns, col_eta, invMixCol_mixCol]

/-! ## AES-128 key expansion (FIPS-197 section 5.2) -/

def colXor (a b : Col) : Col :=
  ⟨byteXor a.c0 b.c0, byteXor a.c1 b.c1, byteXor a.c2 b.c2, byteXor a.c3 b.c3⟩

def rotWord (w : Col) : Col := ⟨w.c1, w.c2, w.c3, w.c0⟩

def subWord (w : Col) : Col := ⟨sbox w.c0, sbox w.c1, sbox w.c2, sbox w.c3⟩

def rconTable : List Byte := [1, 2, 4, 8, 16, 32, 64, 128, 0x1B, 0x36]

def rcon (i : Nat) : Byte := rconTable.getD (i - 1) 0

/-- Append the next word of the key schedule to `ws` (which lists words `0..ws.length-1`). -/
def nextWord (ws : List Col) : List Col :=
  let i := ws.length
  let wPrev := (ws.getLast? ).getD ⟨0, 0, 0, 0⟩
  let wBack := ws.getD (i - 4) ⟨0, 0, 0, 0⟩
  let t := if i % 4 == 0 then colXor (subWord (rotWord wPrev)) ⟨rcon (i / 4), 0, 0, 0⟩ else wPrev
  ws ++ [colXor wBack t]

def keyWords (key : Block) : List Col :=
  (List.range 40).foldl (fun ws _ => nextWord ws)
    [⟨key.b0, key.b1, key.b2, key.b3⟩, ⟨key.b4, key.b5, key.b6, key.b7⟩,
     ⟨key.b8, key.b9, key.b10, key.b11⟩, ⟨key.b12, key.b13, key.b14, key.b15⟩]

def wordsToBlock (w0 w1 w2 w3 : Col) : Block :=
  ⟨w0.c0, w0.c1, w0.c2, w0.c3, w1.c0, w1.c1, w1.c2, w1.c3,
   w2.c0, w2.c1, w2.c2, w2.c3, w3.c0, w3.c1, w3.c2, w3.c3⟩

def keyExpansion (key : Block) : List Block :=
  let ws := keyWords key
  (List.range 11).map fun r =>
    wordsToBlock (ws.getD (4 * r) ⟨0, 0, 0, 0⟩) (ws.getD (4 * r + 1) ⟨0, 0, 0, 0⟩)
      (ws.getD (4 * r + 2) ⟨0, 0, 0, 0⟩) (ws.getD (4 * r + 3) ⟨0, 0, 0, 0⟩)

/-! ## The AES-128 block cipher -/

def aesEncryptBlock (rk : List Block) (b : Block) : Block :=
  let s0 := addRoundKey (rk.getD 0 zeroBlock) b
  let s1 := addRoundKey (rk.getD 1 zeroBlock) (mixColumns (shiftRows (subBytes s0)))
  let s2 := addRoundKey (rk.getD 2 zeroBlock) (mixColumns (shiftRows (subBytes s1)))
  let s3 := addRoundKey (rk.getD 3 zeroBlock) (mixColumns (shiftRows (subBytes s2)))
  let s4 := addRoundKey (rk.getD 4 zeroBlock) (mixColumns (shiftRows (subBytes s3)))
  let s5 := addRoundKey (rk.getD 5 zeroBlock) (mixColumns (shiftRows (subBytes s4)))
  let s6 := addRoundKey (rk.getD 6 zeroBlock) (mixColumns (shiftRows (subBytes s5)))
  let s7 := addRoundKey (rk.getD 7 zeroBlock) (mixColumns (shiftRows (subBytes s6)))
  let s8 := addRoundKey (rk.getD 8 zeroBlock) (mixColumns (shiftRows (subBytes s7)))
  let s9 := addRoundKey (rk.getD 9 zeroBlock) (mixColumns (shiftRows (subBytes s8)))
  addRoundKey (rk.getD 10 zeroBlock) (shiftRows (subBytes s9))

def aesDecryptBlock (rk : List Block) (c : Block) : Block :=
  let t9 := invSubBytes (invShiftRows (addRoundKey (rk.getD 10 zeroBlock) c))
  let t8 := invSubBytes (invShiftRows (invMixColumns (addRoundKey (rk.getD 9 zeroBlock) t9)))
  let t7 := invSubBytes (invShiftRows (invMixColumns (addRoundKey (rk.getD 8 zeroBlock) t8)))
  let t6 := invSubBytes (invShiftRows (invMixColumns (addRoundKey (rk.getD 7 zeroBlock) t7)))
  let t5 := invSubBytes (invShiftRows (invMixColumns (addRoundKey (rk.getD 6 zeroBlock) t6)))
  let t4 := invSubBytes (invShiftRows (invMixColumns (addRoundKey (rk.getD 5 zeroBlock) t5)))
  let t3 := invSubBytes (invShiftRows (invMixColumns (addRoundKey (rk.getD 4 zeroBlock) t4)))
  let t2 := invSubBytes (invShiftRows (invMixColumns (addRoundKey (rk.getD 3 zeroBlock) t3)))
  let t1 := invSubBytes (invShiftRows (invMixColumns (addRoundKey (rk.getD 2 zeroBlock) t2)))
  let t0 := invSubBytes (invShiftRows (invMixColumns (addRoundKey (rk.getD 1 zeroBlock) t1)))
  addRoundKey (rk.getD 0 zeroBlock) t0

theorem aesDecryptBlock_aesEncryptBlock (rk : List Block) (b : Block) :
    aesDecryptBlock rk (aesEncryptBlock rk b) = b := by
  simp only [aesEncryptBlock, aesDecryptBlock, addRoundKey_addRoundKey,
    invShiftRows_shiftRows, invSubBytes_subBytes, invMixColumns_mixColumns]

/-! ## ECB mode over byte strings -/

def blockOfList (l : List Byte) : Block :=
  match l with
  | a0 :: a1 :: a2 :: a3 :: a4 :: a5 :: a6 :: a7 ::
      a8 :: a9 :: a10 :: a11 :: a12 :: a13 :: a14 :: a15 :: _ =>
    ⟨a0, a1, a2, a3, a4, a5, a6, a7, a8, a9, a10, a11, a12, a13, a14, a15⟩
  | _ => zeroBlock

def blockToList (b : Block) : List Byte :=
  [b.b0, b.b1, b.b2, b.b3, b.b4, b.b5, b.b6, b.b7,
   b.b8, b.b9, b.b10, b.b11, b.b12, b.b13, b.b14, b.b15]

/-- Apply a block transformation to each complete 16-byte chunk of a byte string.
The byte strings fed to this function always have length a multiple of 16
(pycryptodome raises on other lengths, and `decrypt_aes` checks first). -/
def ecbMap (f : Block → Block) : List Byte → List Byte
  | a0 :: a1 :: a2 :: a3 :: a4 :: a5 :: a6 :: a7 ::
      a8 :: a9 :: a10 :: a11 :: a12 :: a13 :: a14 :: a15 :: rest =>
    blockToList (f ⟨a0, a1, a2, a3, a4, a5, a6, a7, a8, a9, a10, a11, a12, a13, a14, a15⟩) ++
      ecbMap f rest
  | _ => []

def ecbEncryptBytes (rk : List Block) (l : List Byte) : List Byte :=
  ecbMap (aesEncryptBlock rk) l

def ecbDecryptBytes (rk : List Block) (l : List Byte) : List Byte :=
  ecbMap (aesDecryptBlock rk) l

theorem blockOfList_blockToList (b : Block) : blockOfList (blockToList b) = b := rfl

theorem blockToList_length (b : Block) : (blockToList b).length = 16 := rfl

theorem blockToList_blockOfList (l : List Byte) (h : l.length = 16) :
    blockToList (blockOfList l) = l := by
  match l, h with
  | [a0, a1, a2, a3, a4, a5, a6, a7, a8, a9, a10, a11, a12, a13, a14, a15], _ => rfl

theorem ecbMap_append_block (f : Block → Block) (b : Block) (rest : List Byte) :
    ecbMap f (blockToList b ++ rest) = blockToList (f b) ++ ecbMap f rest := by
  cases b
  rfl

theorem ecbMap_step (f : Block → Block) (l : List Byte) (h : 16 ≤ l.length) :
    ecbMap f l = blockToList (f (blockOfList (l.take 16))) ++ ecbMap f (l.drop 16) := by
  have htake : (l.take 16).length = 16 := by
    rw [List.length_take]
    omega
  conv_lhs =>
    rw [← List.take_append_drop 16 l, ← blockToList_blockOfList (l.take 16) htake]
  rw [ecbMap_append_block]

theorem ecb_roundtrip_fuel (rk : List Block) :
    ∀ n (l : List Byte), l.length ≤ n → l.length % 16 = 0 →
      ecbDecryptBytes rk (ecbEncryptBytes rk l) = l := by
  intro n
  induction n with
  | zero =>
    intro l hlen _
    have hl : l = [] := List.eq_nil_of_length_eq_zero (Nat.le_zero.mp hlen)
    subst hl
    rfl
  | succ n ih =>
    intro l hlen hmod
    rcases l with _ | ⟨a, t⟩
    · rfl
    · have hlen16 : 16 ≤ (a :: t).length := by
        have h1 : 0 < (a :: t).length := by simp
        omega
      rw [ecbEncryptBytes, ecbMap_step _ _ hlen16, ecbDecryptBytes, ecbMap_append_block,
        aesDecryptBlock_aesEncryptBlock]
      have hdl : ((a :: t).drop 16).length ≤ n := by
        rw [List.length_drop]
        simp only [List.length_cons] at hlen ⊢
        omega
      have hdm : ((a :: t).drop 16).length % 16 = 0 := by
        rw [List.length_drop]
        omega
      have ihd := ih ((a :: t).drop 16) hdl hdm
      rw [ecbEncryptBytes, ecbDecryptBytes] at ihd
      rw [ihd, blockToList_blockOfList _ (by rw [List.length_take]; omega), List.take_append_drop]

theorem ecb_roundtrip (rk : List Block) (l : List Byte) (h : l.length % 16 = 0) :
    ecbDecryptBytes rk (ecbEncryptBytes rk l) = l :=
  ecb_roundtrip_fuel rk l.length l le_rfl h

/-! ## PKCS#7 padding (`Crypto.Util.Padding`, style pkcs7, block size 16) -/

def pad16 (l : List Byte) : List Byte :=
  l ++ List.replicate (16 - l.length % 16) ⟨16 - l.length % 16, by omega⟩

/-- Model of `Crypto.Util.Padding.unpad(data, 16)`: `none` models the raised
`ValueError` (incorrect length, empty input, or incorrect padding). -/
def unpad16 (l : List Byte) : Option (List Byte) :=
  if l.length % 16 ≠ 0 then none
  else
    match l.getLast? with
    | none => none
    | some last =>
      let k := last.val
      if k < 1 ∨ 16 < k ∨ l.length < k then none
      else if l.drop (l.length - k) ≠ List.replicate k last then none
      else some (l.take (l.length - k))

theorem unpad16_append_replicate (l : List Byte) (k : Nat) (hfin : k < 256)
    (hk1 : 1 ≤ k) (hk16 : k ≤ 16) (hmod : (l.length + k) % 16 = 0) :
    unpad16 (l ++ List.replicate k (⟨k, hfin⟩ : Byte)) = some l := by
  have hlen : (l ++ List.replicate k (⟨k, hfin⟩ : Byte)).length = l.length + k := by
    simp
  have hrep_ne : (List.replicate k (⟨k, hfin⟩ : Byte)) ≠ [] := by
    simp [List.replicate_eq_nil_iff]
    omega
  have hlast : (l ++ List.replicate k (⟨k, hfin⟩ : Byte)).getLast? = some ⟨k, hfin⟩ := by
    rw [List.getLast?_append_of_ne_nil _ hrep_ne, List.getLast?_replicate, if_neg (by omega)]
  rw [unpad16, if_neg (by rw [hlen, hmod]; simp), hlast]
  simp only [Fin.val_mk]
  rw [if_neg (by push_neg; refine ⟨hk1, hk16, ?_⟩; rw [hlen]; omega)]
  have hdrop : (l ++ List.replicate k (⟨k, hfin⟩ : Byte)).drop
      ((l ++ List.replicate k (⟨k, hfin⟩ : Byte)).length - k) =
      List.replicate k (⟨k, hfin⟩ : Byte) := by
    rw [hlen]
    have h2 : l.length + k - k = l.length := by omega
    rw [h2]
    exact List.drop_left l _
  rw [if_neg (by rw [hdrop]; simp)]
  congr 1
  rw [hlen]
  have h2 : l.length + k - k = l.length := by omega
  rw [h2]
  exact List.take_left l _

theorem unpad16_pad16 (l : List Byte) : unpad16 (pad16 l) = some l := by
  rw [pad16]
  apply unpad16_append_replicate l (16 - l.length % 16) (by omega) (by omega) (by omega)
  omega

/-- Model of `bytes.rstrip` with the zero byte: drop trailing zero bytes. -/
def rstripZeros (l : List Byte) : List Byte :=
  (l.reverse.dropWhile (fun b => b.val == 0)).reverse

/-! ## Strict UTF-8 validity (Python `bytes.decode` with the utf-8 codec succeeds
exactly on byte strings accepted by this validator, per RFC 3629: ASCII bytes,
2-byte leads C2-DF, 3-byte leads E0/E1-EC/ED/EE-EF with their constrained first
continuation ranges, 4-byte leads F0/F1-F3/F4 likewise; continuation bytes are
80-BF) -/

def isContIn (lo hi : Nat) (b : Byte) : Bool := decide (lo ≤ b.val) && decide (b.val ≤ hi)

/-- Lead byte of a 2-byte sequence. -/
def lead2 (b : Byte) : Bool := decide (0xC2 ≤ b.val) && decide (b.val ≤ 0xDF)

/-- Lead byte of a 3-byte sequence, with the admissible range of its first
continuation byte (E0 excludes overlong encodings, ED excludes surrogates). -/
def lead3 (b : Byte) : Option (Nat × Nat) :=
  if b.val = 0xE0 then some (0xA0, 0xBF)
  else if (0xE1 ≤ b.val ∧ b.val ≤ 0xEC) ∨ b.val = 0xEE ∨ b.val = 0xEF then some (0x80, 0xBF)
  else if b.val = 0xED then some (0x80, 0x9F)
  else none

/-- Lead byte of a 4-byte sequence, with the admissible range of its first
continuation byte (F0 excludes overlong encodings, F4 limits to U+10FFFF). -/
def lead4 (b : Byte) : Option (Nat × Nat) :=
  if b.val = 0xF0 then some (0x90, 0xBF)
  else if 0xF1 ≤ b.val ∧ b.val ≤ 0xF3 then some (0x80, 0xBF)
  else if b.val = 0xF4 then some (0x80, 0x8F)
  else none

def isValidUtf8 : List Byte → Bool
  | [] => true
  | [b] => decide (b.val < 0x80)
  | [b, b1] =>
    if b.val < 0x80 then isValidUtf8 [b1]
    else lead2 b && isContIn 0x80 0xBF b1
  | [b, b1, b2] =>
    if b.val < 0x80 then isValidUtf8 [b1, b2]
    else if lead2 b then isContIn 0x80 0xBF b1 && isValidUtf8 [b2]
    else (lead3 b).elim false fun p => isContIn p.1 p.2 b1 && isContIn 0x80 0xBF b2
  | b :: b1 :: b2 :: b3 :: rest =>
    if b.val < 0x80 then isValidUtf8 (b1 :: b2 :: b3 :: rest)
    else if lead2 b then isContIn 0x80 0xBF b1 && isValidUtf8 (b2 :: b3 :: rest)
    else
      (lead3 b).elim
        ((lead4 b).elim false fun p =>
          isContIn p.1 p.2 b1 && isContIn 0x80 0xBF b2 && isContIn 0x80 0xBF b3 &&
            isValidUtf8 rest)
        fun p => isContIn p.1 p.2 b1 && isContIn 0x80 0xBF b2 && isValidUtf8 (b3 :: rest)

/-! ## CRC32 (`zlib.crc32`, reflected polynomial 0xEDB88320) -/

def crc32Round (crc : Nat) : Nat :=
  if crc % 2 == 1 then (crc >>> 1) ^^^ 0xEDB88320 else crc >>> 1

def crc32Byte (crc : Nat) (b : Byte) : Nat :=
  crc32Round (crc32Round (crc32Round (crc32Round
    (crc32Round (crc32Round (crc32Round (crc32Round (crc ^^^ b.val))))))))

def crc32 (data : List Byte) : Nat :=
  (data.foldl crc32Byte 0xFFFFFFFF) ^^^ 0xFFFFFFFF

/-- One uppercase hexadecimal digit, as the byte of its ASCII character. -/
def hexDigit (d : Nat) : Byte :=
  if h : d % 16 < 10 then ⟨48 + d % 16, by omega⟩ else ⟨55 + d % 16, by omega⟩

/-- Model of `calculate_crc32` (live_ids.py lines 89-101):
`format(zlib.crc32(data) & 0xFFFFFFFF, '08X')`, returned as the ASCII bytes of the
8-digit uppercase hex rendering. -/
def calculate_crc32 (data : List Byte) : List Byte :=
  [hexDigit ((crc32 data &&& 0xFFFFFFFF) >>> 28), hexDigit ((crc32 data &&& 0xFFFFFFFF) >>> 24),
   hexDigit ((crc32 data &&& 0xFFFFFFFF) >>> 20), hexDigit ((crc32 data &&& 0xFFFFFFFF) >>> 16),
   hexDigit ((crc32 data &&& 0xFFFFFFFF) >>> 12), hexDigit ((crc32 data &&& 0xFFFFFFFF) >>> 8),
   hexDigit ((crc32 data &&& 0xFFFFFFFF) >>> 4), hexDigit (crc32 data &&& 0xFFFFFFFF)]

/-! ## Checksum verification (`verify_checksum`, live_ids.py lines 132-160) -/

def pipeByte : Byte := 124

/-- ASCII whitespace bytes removed by Python `str.strip()`. -/
def isPyWs (b : Byte) : Bool :=
  b.val == 9 || b.val == 10 || b.val == 11 || b.val == 12 || b.val == 13 ||
    b.val == 28 || b.val == 29 || b.val == 30 || b.val == 31 || b.val == 32

/-- Model of Python `str.strip()` on the UTF-8 byte representation (ASCII
whitespace; the strings this is applied to are hexadecimal checksum digits). -/
def pyStrip (l : List Byte) : List Byte :=
  ((l.dropWhile isPyWs).reverse.dropWhile isPyWs).reverse

/-- Split at the last occurrence of the delimiter byte, mirroring
`s.rsplit(sep, 1)`: `none` when the delimiter does not occur. -/
def rsplitPipe : List Byte → Option (List Byte × List Byte)
  | [] => none
  | a :: rest =>
    match rsplitPipe rest with
    | some (d, c) => some (a :: d, c)
    | none => if a = pipeByte then some ([], rest) else none

/-- Model of `verify_checksum` (live_ids.py lines 132-160).  Returns the data
part together with `none` (no delimiter present) or `some b` (comparison of the
received checksum, stripped, against the recalculated one). -/
def verify_checksum (s : List Byte) : List Byte × Option Bool :=
  match rsplitPipe s with
  | none => (s, none)
  | some (data, cks) => (data, some (decide (pyStrip cks = calculate_crc32 data)))

/-! ## The CryptoVerifier (`decrypt_aes`, live_ids.py lines 107-130) -/

/-- The pre-shared AES-128 key (live_ids.py lines 53-56, FIPS-197 sample key). -/
def AES_KEY : Block :=
  ⟨0x2b, 0x7e, 0x15, 0x16, 0x28, 0xae, 0xd2, 0xa6,
   0xab, 0xf7, 0x15, 0x88, 0x09, 0xcf, 0x4f, 0x3c⟩

def aesRoundKeys : List Block := keyExpansion AES_KEY

/-- Model of `decrypt_aes` (live_ids.py lines 107-130): AES-128-ECB decryption
with the pre-shared key, standard unpadding with fallback to stripping trailing
zero bytes, then UTF-8 decoding (modelled as validation of the byte string;
`none` models every exception path, i.e. ciphertext length not a multiple of 16
or invalid UTF-8). -/
def decrypt_aes (ct : List Byte) : Option (List Byte) :=
  if ct.length % 16 ≠ 0 then none
  else
    let d := ecbDecryptBytes aesRoundKeys ct
    let u := match unpad16 d with
      | some u => u
      | none => rstripZeros d
    if isValidUtf8 u then some u else none

/-- Modelled from the spec: the sending device (ESP32 firmware, not under src/)
produces the ciphertext by encrypting the string `P|checksum(P)` with the same
pre-shared key, AES-128 in ECB mode with standard (pkcs7) block padding
(spec sections 4.1 and 8: ciphertext produced by re-encrypting `P|checksum(P)`). -/
def encryptPayload (data : List Byte) : List Byte :=
  ecbEncryptBytes aesRoundKeys (pad16 (data ++ pipeByte :: calculate_crc32 data))


/-! ## Unfolding and composition lemmas for the UTF-8 validator -/

theorem valid_nil : isValidUtf8 [] = true := rfl

theorem valid_one (b : Byte) : isValidUtf8 [b] = decide (b.val < 0x80) := rfl

theorem valid_two_arm (b b1 : Byte) :
    isValidUtf8 [b, b1] =
      if b.val < 0x80 then isValidUtf8 [b1] else lead2 b && isContIn 0x80 0xBF b1 := rfl

theorem valid_three_arm (b b1 b2 : Byte) :
    isValidUtf8 [b, b1, b2] =
      if b.val < 0x80 then isValidUtf8 [b1, b2]
      else if lead2 b then isContIn 0x80 0xBF b1 && isValidUtf8 [b2]
      else (lead3 b).elim false fun p => isContIn p.1 p.2 b1 && isContIn 0x80 0xBF b2 := rfl

theorem valid_four_arm (b b1 b2 b3 : Byte) (rest : List Byte) :
    isValidUtf8 (b :: b1 :: b2 :: b3 :: rest) =
      if b.val < 0x80 then isValidUtf8 (b1 :: b2 :: b3 :: rest)
      else if lead2 b then isContIn 0x80 0xBF b1 && isValidUtf8 (b2 :: b3 :: rest)
      else
        (lead3 b).elim
          ((lead4 b).elim false fun p =>
            isContIn p.1 p.2 b1 && isContIn 0x80 0xBF b2 && isContIn 0x80 0xBF b3 &&
              isValidUtf8 rest)
          fun p => isContIn p.1 p.2 b1 && isContIn 0x80 0xBF b2 && isValidUtf8 (b3 :: rest)
    := rfl

theorem lead2_bounds (b : Byte) (h : lead2 b = true) : 0xC2 ≤ b.val ∧ b.val ≤ 0xDF := by
  simpa [lead2] using h

theorem lead3_bounds (b : Byte) (p : Nat × Nat) (h : lead3 b = some p) :
    0xE0 ≤ b.val ∧ b.val ≤ 0xEF := by
  unfold lead3 at h
  split_ifs at h <;> first | omega | simp at h

theorem lead4_bounds (b : Byte) (p : Nat × Nat) (h : lead4 b = some p) :
    0xF0 ≤ b.val ∧ b.val ≤ 0xF4 := by
  unfold lead4 at h
  split_ifs at h <;> first | omega | simp at h

theorem lead2_false_of_ge (b : Byte) (h : 0xE0 ≤ b.val) : lead2 b = false := by
  simp [lead2]
  omega

theorem lead3_none_of_ge (b : Byte) (h : 0xF0 ≤ b.val) : lead3 b = none := by
  unfold lead3
  rw [if_neg (by omega), if_neg (by omega), if_neg (by omega)]

theorem valid_cons_ascii (b : Byte) (r : List Byte) (h : b.val < 0x80) :
    isValidUtf8 (b :: r) = isValidUtf8 r := by
  match r with
  | [] => simp [valid_one, valid_nil, h]
  | [c] => rw [valid_two_arm, if_pos h]
  | [c, d] => rw [valid_three_arm, if_pos h]
  | c :: d :: e :: rest => rw [valid_four_arm, if_pos h]

theorem valid_cons_lead2 (b b1 : Byte) (r : List Byte) (h : lead2 b = true) :
    isValidUtf8 (b :: b1 :: r) = (isContIn 0x80 0xBF b1 && isValidUtf8 r) := by
  have hb := lead2_bounds b h
  match r with
  | [] =>
    rw [valid_two_arm, if_neg (by omega), h]
    simp [valid_nil]
  | [c] =>
    rw [valid_three_arm, if_neg (by omega), h]
    simp
  | c :: d :: rest =>
    rw [valid_four_arm, if_neg (by omega), h]
    simp

theorem valid_cons_lead3 (b b1 b2 : Byte) (r : List Byte) (p : Nat × Nat)
    (h : lead3 b = some p) :
    isValidUtf8 (b :: b1 :: b2 :: r) =
      (isContIn p.1 p.2 b1 && isContIn 0x80 0xBF b2 && isValidUtf8 r) := by
  have hb := lead3_bounds b p h
  have h2 : lead2 b = false := lead2_false_of_ge b (by omega)
  match r with
  | [] =>
    rw [valid_three_arm, if_neg (by omega), h2, h]
    simp [valid_nil, Option.elim]
  | c :: rest =>
    rw [valid_four_arm, if_neg (by omega), h2, h]
    simp [Option.elim]

theorem valid_cons_lead4 (b b1 b2 b3 : Byte) (r : List Byte) (p : Nat × Nat)
    (h : lead4 b = some p) :
    isValidUtf8 (b :: b1 :: b2 :: b3 :: r) =
      (isContIn p.1 p.2 b1 && isContIn 0x80 0xBF b2 && isContIn 0x80 0xBF b3 &&
        isValidUtf8 r) := by
  have hb := lead4_bounds b p h
  have h2 : lead2 b = false := lead2_false_of_ge b (by omega)
  have h3 : lead3 b = none := lead3_none_of_ge b (by omega)
  rw [valid_four_arm, if_neg (by omega), h2, h3, h]
  simp [Option.elim]

theorem valid_cons_bad (b : Byte) (r : List Byte) (h1 : ¬ b.val < 0x80)
    (h2 : lead2 b = false) (h3 : lead3 b = none) (h4 : lead4 b = none) :
    isValidUtf8 (b :: r) = false := by
  match r with
  | [] => simp [valid_one, h1]
  | [c] =>
    rw [valid_two_arm, if_neg h1, h2]
    simp
  | [c, d] =>
    rw [valid_three_arm, if_neg h1, h2, h3]
    simp [Option.elim]
  | c :: d :: e :: rest =>
    rw [valid_four_arm, if_neg h1, h2, h3, h4]
    simp [Option.elim]

theorem isValidUtf8_append_fuel (y : List Byte) (hy : isValidUtf8 y = true) :
    ∀ n x, List.length x ≤ n → isValidUtf8 x = true → isValidUtf8 (x ++ y) = true := by
  intro n
  induction n with
  | zero =>
    intro x hl hx
    have hx0 : x = [] := List.eq_nil_of_length_eq_zero (Nat.le_zero.mp hl)
    subst hx0
    simpa using hy
  | succ n ih =>
    intro x hl hx
    rcases x with _ | ⟨b, t⟩
    · simpa using hy
    · by_cases hA : b.val < 0x80
      · rw [valid_cons_ascii _ _ hA] at hx
        rw [List.cons_append, valid_cons_ascii _ _ hA]
        refine ih t ?_ hx
        simp only [List.length_cons] at hl
        omega
      · cases hL2 : lead2 b with
        | true =>
          rcases t with _ | ⟨b1, r⟩
          · rw [valid_one] at hx
            simp [hA] at hx
          · rw [valid_cons_lead2 _ _ _ hL2, Bool.and_eq_true] at hx
            rw [List.cons_append, List.cons_append, valid_cons_lead2 _ _ _ hL2,
              Bool.and_eq_true]
            refine ⟨hx.1, ih r ?_ hx.2⟩
            simp only [List.length_cons] at hl
            omega
        | false =>
          cases hL3 : lead3 b with
          | some p =>
            rcases t with _ | ⟨b1, _ | ⟨b2, r⟩⟩
            · rw [valid_one] at hx
              simp [hA] at hx
            · rw [valid_two_arm, if_neg hA, hL2] at hx
              simp at hx
            · rw [valid_cons_lead3 _ _ _ _ _ hL3, Bool.and_eq_true, Bool.and_eq_true] at hx
              rw [List.cons_append, List.cons_append, List.cons_append,
                valid_cons_lead3 _ _ _ _ _ hL3, Bool.and_eq_true, Bool.and_eq_true]
              refine ⟨⟨hx.1.1, hx.1.2⟩, ih r ?_ hx.2⟩
              simp only [List.length_cons] at hl
              omega
          | none =>
            cases hL4 : lead4 b with
            | some p =>
              rcases t with _ | ⟨b1, _ | ⟨b2, _ | ⟨b3, r⟩⟩⟩
              · rw [valid_one] at hx
                simp [hA] at hx
              · rw [valid_two_arm, if_neg hA, hL2] at hx
                simp at hx
              · rw [valid_three_arm, if_neg hA, hL2, hL3] at hx
                simp [Option.elim] at hx
              · rw [valid_cons_lead4 _ _ _ _ _ _ hL4, Bool.and_eq_true, Bool.and_eq_true,
                  Bool.and_eq_true] at hx
                rw [List.cons_append, List.cons_append, List.cons_append, List.cons_append,
                  valid_cons_lead4 _ _ _ _ _ _ hL4, Bool.and_eq_true, Bool.and_eq_true,
                  Bool.and_eq_true]
                refine ⟨⟨⟨hx.1.1.1, hx.1.1.2⟩, hx.1.2⟩, ih r ?_ hx.2⟩
                simp only [List.length_cons] at hl
                omega
            | none =>
              rw [valid_cons_bad _ _ hA hL2 hL3 hL4] at hx
              exact absurd hx (by simp)

theorem isValidUtf8_append (x y : List Byte) (hx : isValidUtf8 x = true)
    (hy : isValidUtf8 y = true) : isValidUtf8 (x ++ y) = true :=
  isValidUtf8_append_fuel y hy x.length x le_rfl hx

theorem isValidUtf8_of_ascii (l : List Byte) (h : ∀ b ∈ l, b.val < 0x80) :
    isValidUtf8 l = true := by
  induction l with
  | nil => rfl
  | cons b t ih =>
    rw [valid_cons_ascii _ _ (h b (by simp))]
    exact ih fun c hc => h c (by simp [hc])

/-! ## Facts about the rendered checksum digits -/

theorem hexDigit_range (d : Nat) : 48 ≤ (hexDigit d).val ∧ (hexDigit d).val ≤ 70 := by
  unfold hexDigit
  split <;> simp <;> omega

theorem calculate_crc32_range (data : List Byte) :
    ∀ b ∈ calculate_crc32 data, 48 ≤ b.val ∧ b.val ≤ 70 := by
  intro b hb
  simp only [calculate_crc32, List.mem_cons, List.not_mem_nil, or_false] at hb
  rcases hb with h | h | h | h | h | h | h | h <;> (subst h; exact hexDigit_range _)

theorem pipe_not_mem_crc (data : List Byte) : pipeByte ∉ calculate_crc32 data := by
  intro hmem
  have h := calculate_crc32_range data pipeByte hmem
  have hv : pipeByte.val = 124 := rfl
  omega

theorem crc_no_ws (data : List Byte) : ∀ b ∈ calculate_crc32 data, isPyWs b = false := by
  intro b hb
  have h := calculate_crc32_range data b hb
  simp [isPyWs]
  omega

theorem crc_ascii (data : List Byte) : ∀ b ∈ calculate_crc32 data, b.val < 0x80 := by
  intro b hb
  have h := calculate_crc32_range data b hb
  omega

/-! ## Behaviour of strip and rsplit on delimiter-free data -/

theorem dropWhile_eq_self_of_no_ws (l : List Byte) (h : ∀ b ∈ l, isPyWs b = false) :
    l.dropWhile isPyWs = l := by
  cases l with
  | nil => rfl
  | cons a t =>
    rw [List.dropWhile_cons]
    rw [h a (by simp)]
    simp

theorem pyStrip_eq_self (l : List Byte) (h : ∀ b ∈ l, isPyWs b = false) : pyStrip l = l := by
  rw [pyStrip, dropWhile_eq_self_of_no_ws l h,
    dropWhile_eq_self_of_no_ws l.reverse (fun b hb => h b (List.mem_reverse.mp hb)),
    List.reverse_reverse]

theorem rsplitPipe_none (l : List Byte) (h : pipeByte ∉ l) : rsplitPipe l = none := by
  induction l with
  | nil => rfl
  | cons a t ih =>
    rw [rsplitPipe]
    rw [ih (fun hm => h (by simp [hm]))]
    rw [if_neg (fun he => h (by simp [he]))]

theorem rsplitPipe_last (P H : List Byte) (h : pipeByte ∉ H) :
    rsplitPipe (P ++ pipeByte :: H) = some (P, H) := by
  induction P with
  | nil =>
    rw [List.nil_append, rsplitPipe, rsplitPipe_none H h, if_pos rfl]
  | cons a t ih =>
    rw [List.cons_append, rsplitPipe, ih]

/-! ## Length bookkeeping for ECB and padding -/

theorem pad16_mod (l : List Byte) : (pad16 l).length % 16 = 0 := by
  simp only [pad16, List.length_append, List.length_replicate]
  omega

theorem ecbMap_length_fuel (f : Block → Block) :
    ∀ n (l : List Byte), l.length ≤ n → l.length % 16 = 0 →
      (ecbMap f l).length = l.length := by
  intro n
  induction n with
  | zero =>
    intro l hlen _
    have hl : l = [] := List.eq_nil_of_length_eq_zero (Nat.le_zero.mp hlen)
    subst hl
    rfl
  | succ n ih =>
    intro l hlen hmod
    rcases l with _ | ⟨a, t⟩
    · rfl
    · have hlen16 : 16 ≤ (a :: t).length := by
        have h1 : 0 < (a :: t).length := by simp
        omega
      rw [ecbMap_step _ _ hlen16, List.length_append, blockToList_length]
      have hdl : ((a :: t).drop 16).length ≤ n := by
        rw [List.length_drop]
        simp only [List.length_cons] at hlen ⊢
        omega
      have hdm : ((a :: t).drop 16).length % 16 = 0 := by
        rw [List.length_drop]
        omega
      rw [ih _ hdl hdm, List.length_drop]
      omega

theorem encryptPayload_mod (data : List Byte) : (encryptPayload data).length % 16 = 0 := by
  rw [encryptPayload, ecbEncryptBytes,
    ecbMap_length_fuel _ _ _ le_rfl (pad16_mod _), pad16_mod]

/-! ## The decrypt-verify round trip -/

theorem decrypt_aes_encryptPayload (P : List Byte) (hP : isValidUtf8 P = true) :
    decrypt_aes (encryptPayload P) = some (P ++ pipeByte :: calculate_crc32 P) := by
  rw [decrypt_aes, if_neg (by rw [encryptPayload_mod]; simp)]
  simp only [encryptPayload]
  rw [ecb_roundtrip _ _ (pad16_mod _), unpad16_pad16]
  have hv : isValidUtf8 (P ++ pipeByte :: calculate_crc32 P) = true := by
    apply isValidUtf8_append _ _ hP
    apply isValidUtf8_of_ascii
    intro b hb
    rcases List.mem_cons.mp hb with h | h
    · subst h
      decide
    · exact crc_ascii P b h
  rw [if_pos hv]

theorem verify_checksum_appended (P : List Byte) :
    verify_checksum (P ++ pipeByte :: calculate_crc32 P) = (P, some true) := by
  rw [verify_checksum, rsplitPipe_last P _ (pipe_not_mem_crc P)]
  dsimp only []
  rw [pyStrip_eq_self _ (crc_no_ws P)]
  simp

/-! ## The IDS state (live_ids.py global variables, lines 63-75) -/

structure PacketStats where
  total_packets : Nat
  attacks_detected : Nat
  ips_blocked : Nat
  checksum_failures : Nat
deriving DecidableEq

structure AttackLogEntry where
  topic : String
  payload_length : Nat
  source_ip : Option String
  confidence : ℚ

structure IDSState where
  packet_stats : PacketStats
  blocked_ips : Finset String
  last_packet_time : List (String × ℚ)
  attack_log : List AttackLogEntry

/-- Process start: empty map, empty set, zeroed counters (lines 66-75). -/
def initState : IDSState :=
  ⟨⟨0, 0, 0, 0⟩, ∅, [], []⟩

/-- The external classifier artifact: predicted class over a feature vector, and
an optional probability table (`predict_proba` may be unsupported, lines 290-294). -/
structure Classifier where
  predict : List ℚ → Nat
  predict_proba : Option (List ℚ → Nat → ℚ)

/-- Configuration constants of live_ids.py (lines 47-51) together with the
loaded model artifacts (globals `ml_model` and `scaler`). -/
structure Config where
  enable_checksum : Bool
  enable_auto_block : Bool
  detection_threshold : ℚ
  ml_model : Option Classifier
  scaler : Option (List ℚ → List ℚ)

/-- live_ids.py line 47: `DETECTION_THRESHOLD = 0.5`. -/
def DETECTION_THRESHOLD : ℚ := 1 / 2

/-! ## FlowTracker (live_ids.py lines 184-190 inside `on_message`) -/

/-- Per-topic timing: elapsed time since the previous message on this topic
(0 on first observation), and the updated last-seen map. -/
def flow_delta (last : List (String × ℚ)) (topic : String) (now : ℚ) :
    ℚ × List (String × ℚ) :=
  (match last.lookup topic with
   | some t => now - t
   | none => 0,
   (topic, now) :: last)

/-! ## FeatureExtractor (`extract_features`, live_ids.py lines 235-264) -/

/-- The fixed-order feature vector: packet length, time delta, topic length,
packets per second (with the 0.001 guard), average payload size. -/
def extract_features (topic : String) (payload_length : Nat) (time_delta : ℚ) : List ℚ :=
  [(payload_length : ℚ), time_delta, (topic.length : ℚ),
   1 / (time_delta + 1 / 1000), (payload_length : ℚ)]

/-! ## Intrusion detection (`detect_intrusion`, live_ids.py lines 268-302) -/

def scaled_features (cfg : Config) (features : List ℚ) : List ℚ :=
  match cfg.scaler with
  | some sc => sc features
  | none => features

/-- Confidence: the probability assigned to the predicted class when
`predict_proba` is available, else 1.0 for class 1 and 0.0 otherwise. -/
def model_confidence (m : Classifier) (feats : List ℚ) (prediction : Nat) : ℚ :=
  match m.predict_proba with
  | some proba => proba feats prediction
  | none => if prediction = 1 then 1 else 0

/-- Model of `detect_intrusion`: with no model loaded, `(False, 0.0)`; otherwise
`is_attack = (prediction == 1) and (confidence >= DETECTION_THRESHOLD)`. -/
def detect_intrusion (cfg : Config) (features : List ℚ) : Bool × ℚ :=
  match cfg.ml_model with
  | none => (false, 0)
  | some m =>
    let feats := scaled_features cfg features
    let prediction := m.predict feats
    let confidence := model_confidence m feats prediction
    (decide (prediction = 1) && decide (cfg.detection_threshold ≤ confidence), confidence)

/-! ## EnforcementEngine (`block_ip` lines 306-330, `unblock_ip` lines 332-350) -/

/-- Model of `block_ip`.  The external firewall (`subprocess.run` of iptables)
is an oracle `fw` giving the return code for each address.  The second
component counts firewall commands actually issued by this call. -/
def block_ip (fw : String → Int) (st : IDSState) (ip : String) : IDSState × Nat :=
  if ip ∈ st.blocked_ips then (st, 0)
  else if fw ip = 0 then
    ({ st with
        blocked_ips := insert ip st.blocked_ips,
        packet_stats := { st.packet_stats with
          ips_blocked := st.packet_stats.ips_blocked + 1 } }, 1)
  else (st, 1)

/-- Model of `unblock_ip`: the command is always issued; on success the address
is discarded from the blocked set (no counter is touched). -/
def unblock_ip (fw : String → Int) (st : IDSState) (ip : String) : IDSState × Nat :=
  if fw ip = 0 then ({ st with blocked_ips := st.blocked_ips.erase ip }, 1)
  else (st, 1)

/-! ## The ingest loop (`on_message`, live_ids.py lines 162-233) -/

structure Msg where
  topic : String
  payload : List Byte
  arrival : ℚ

/-- Model of `extract_source_ip` (live_ids.py lines 363-374): the demo
implementation returns `None` for every message. -/
def extract_source_ip (m : Msg) : Option String := none

def on_message (cfg : Config) (fw : String → Int) (st : IDSState) (m : Msg) : IDSState :=
  let checksum_valid : Option Bool :=
    if cfg.enable_checksum then
      match decrypt_aes m.payload with
      | some d => if d ≠ [] then (verify_checksum d).2 else none
      | none => none
    else none
  let st1 :=
    if checksum_valid = some false then
      { st with packet_stats := { st.packet_stats with
          checksum_failures := st.packet_stats.checksum_failures + 1 } }
    else st
  let fd := flow_delta st1.last_packet_time m.topic m.arrival
  let st2 := { st1 with last_packet_time := fd.2 }
  let features := extract_features m.topic m.payload.length fd.1
  let res := detect_intrusion cfg features
  let st3 := { st2 with packet_stats := { st2.packet_stats with
      total_packets := st2.packet_stats.total_packets + 1 } }
  if res.1 then
    let st4 := { st3 with packet_stats := { st3.packet_stats with
        attacks_detected := st3.packet_stats.attacks_detected + 1 } }
    let source_ip := extract_source_ip m
    let st5 :=
      match source_ip with
      | some ip => if ip ≠ "" ∧ cfg.enable_auto_block then (block_ip fw st4 ip).1 else st4
      | none => st4
    { st5 with attack_log := st5.attack_log ++ [⟨m.topic, m.payload.length, source_ip, res.2⟩] }
  else st3

/-- Run the ingest loop over a trace of incoming messages. -/
def runMessages (cfg : Config) (fw : String → Int) (st : IDSState) (ms : List Msg) : IDSState :=
  ms.foldl (on_message cfg fw) st

/-! ## Step lemmas for the ingest loop -/

theorem on_message_blocked_ips (cfg : Config) (fw : String → Int) (st : IDSState) (m : Msg) :
    (on_message cfg fw st m).blocked_ips = st.blocked_ips := by
  simp only [on_message, extract_source_ip]
  repeat first | rfl | split

theorem on_message_ips_blocked (cfg : Config) (fw : String → Int) (st : IDSState) (m : Msg) :
    (on_message cfg fw st m).packet_stats.ips_blocked = st.packet_stats.ips_blocked := by
  simp only [on_message, extract_source_ip]
  repeat first | rfl | split

theorem on_message_log (cfg : Config) (fw : String → Int) (st : IDSState) (m : Msg) :
    ∀ e ∈ (on_message cfg fw st m).attack_log,
      e ∈ st.attack_log ∨ e.source_ip = none := by
  intro e he
  simp only [on_message, extract_source_ip] at he
  split at he <;> (try split at he) <;> (try split at he) <;> (try dsimp only [] at he) <;>
    first
      | exact Or.inl he
      | (simp only [List.mem_append, List.mem_singleton] at he
         rcases he with he2 | he2
         · exact Or.inl he2
         · exact Or.inr (by rw [he2]))

/-! ## A generalized decrypt-of-encrypt lemma -/

theorem enc_pad_mod (x : List Byte) :
    (ecbEncryptBytes aesRoundKeys (pad16 x)).length % 16 = 0 := by
  rw [ecbEncryptBytes, ecbMap_length_fuel _ _ _ le_rfl (pad16_mod _), pad16_mod]

theorem decrypt_aes_enc_pad (x : List Byte) (hx : isValidUtf8 x = true) :
    decrypt_aes (ecbEncryptBytes aesRoundKeys (pad16 x)) = some x := by
  rw [decrypt_aes, if_neg (by rw [enc_pad_mod]; simp)]
  simp only [ecb_roundtrip aesRoundKeys (pad16 x) (pad16_mod x), unpad16_pad16]
  rw [if_pos hx]

/-! ## Claim theorems -/

/-- C1: Round-trip integrity.  For every (UTF-8 string) payload P, running the
verification pipeline — AES-ECB decryption with the fixed pre-shared key,
padding removal, then checksum check — on a ciphertext produced by encrypting
`P|checksum(P)` (where checksum(P) is the CRC32 of P rendered as 8 uppercase
hex digits) yields the plaintext P together with integrity validity true. -/
theorem C1_roundtrip_integrity (P : List Byte) (hP : isValidUtf8 P = true) :
    (decrypt_aes (encryptPayload P)).map verify_checksum = some (P, some true) := by
  rw [decrypt_aes_encryptPayload P hP]
  dsimp only [Option.map]
  rw [verify_checksum_appended]

/-- The UTF-8 bytes of the payload string `T:25.5`. -/
def samplePayload : List Byte := [84, 58, 50, 53, 46, 53]

theorem C1_roundtrip_integrity_witness :
    isValidUtf8 samplePayload = true ∧
      (decrypt_aes (encryptPayload samplePayload)).map verify_checksum =
        some (samplePayload, some true) :=
  ⟨by decide, C1_roundtrip_integrity samplePayload (by decide)⟩

/-- C2: Flow timing contract.  On the first-ever observation of a flow-key the
elapsed value is 0; for consecutive observations at times t1 < t2 the second
observation yields t2 - t1 and the stored last-seen timestamp becomes t2. -/
theorem C2_flow_timing (last : List (String × ℚ)) (K : String) (t t1 t2 : ℚ)
    (h : t1 < t2) :
    (last.lookup K = none → (flow_delta last K t).1 = 0) ∧
    (flow_delta (flow_delta last K t1).2 K t2).1 = t2 - t1 ∧
    (flow_delta (flow_delta last K t1).2 K t2).2.lookup K = some t2 := by
  refine ⟨fun h0 => ?_, ?_, ?_⟩
  · simp [flow_delta, h0]
  · simp [flow_delta, List.lookup]
  · simp [flow_delta, List.lookup]

theorem C2_flow_timing_witness :
    (([] : List (String × ℚ)).lookup "sensors" = none → (flow_delta [] "sensors" 0).1 = 0) ∧
    (flow_delta (flow_delta [] "sensors" 1).2 "sensors" 3).1 = 3 - 1 ∧
    (flow_delta (flow_delta [] "sensors" 1).2 "sensors" 3).2.lookup "sensors" = some 3 :=
  C2_flow_timing [] "sensors" 0 1 3 (by norm_num)

/-- C3: Detection decision rule and its boundary.  With a loaded classifier the
message is treated as an attack iff the predicted class is 1 (attack) and the
confidence is at least the threshold; exactly at the threshold it is an attack,
strictly below it is benign; the default threshold constant is 0.5. -/
theorem C3_decision_rule (cfg : Config) (c : Classifier) (features : List ℚ)
    (hm : cfg.ml_model = some c) :
    ((detect_intrusion cfg features).1 = true ↔
      (c.predict (scaled_features cfg features) = 1 ∧
        cfg.detection_threshold ≤
          model_confidence c (scaled_features cfg features)
            (c.predict (scaled_features cfg features)))) ∧
    (c.predict (scaled_features cfg features) = 1 →
      model_confidence c (scaled_features cfg features)
          (c.predict (scaled_features cfg features)) = cfg.detection_threshold →
      (detect_intrusion cfg features).1 = true) ∧
    (c.predict (scaled_features cfg features) = 1 →
      model_confidence c (scaled_features cfg features)
          (c.predict (scaled_features cfg features)) < cfg.detection_threshold →
      (detect_intrusion cfg features).1 = false) ∧
    DETECTION_THRESHOLD = 1 / 2 := by
  have hiff : (detect_intrusion cfg features).1 = true ↔
      (c.predict (scaled_features cfg features) = 1 ∧
        cfg.detection_threshold ≤
          model_confidence c (scaled_features cfg features)
            (c.predict (scaled_features cfg features))) := by
    simp [detect_intrusion, hm]
  refine ⟨hiff, ?_, ?_, rfl⟩
  · intro h1 h2
    exact hiff.mpr ⟨h1, le_of_eq h2.symm⟩
  · intro h1 h2
    rcases hb : (detect_intrusion cfg features).1 with _ | _
    · rfl
    · exact absurd (hiff.mp hb).2 (not_le.mpr h2)

/-- A stub classifier that always predicts class 1 with no probability output. -/
def witClassifier : Classifier := ⟨fun _ => 1, none⟩

def witConfig : Config := ⟨true, true, 1 / 2, some witClassifier, none⟩

theorem C3_decision_rule_witness :
    witConfig.ml_model = some witClassifier ∧
    (((detect_intrusion witConfig [0]).1 = true ↔
      (witClassifier.predict (scaled_features witConfig [0]) = 1 ∧
        witConfig.detection_threshold ≤
          model_confidence witClassifier (scaled_features witConfig [0])
            (witClassifier.predict (scaled_features witConfig [0])))) ∧
    (witClassifier.predict (scaled_features witConfig [0]) = 1 →
      model_confidence witClassifier (scaled_features witConfig [0])
          (witClassifier.predict (scaled_features witConfig [0])) =
        witConfig.detection_threshold →
      (detect_intrusion witConfig [0]).1 = true) ∧
    (witClassifier.predict (scaled_features witConfig [0]) = 1 →
      model_confidence witClassifier (scaled_features witConfig [0])
          (witClassifier.predict (scaled_features witConfig [0])) <
        witConfig.detection_threshold →
      (detect_intrusion witConfig [0]).1 = false) ∧
    DETECTION_THRESHOLD = 1 / 2) :=
  ⟨rfl, C3_decision_rule witConfig witClassifier [0] rfl⟩

/-- C4: Fail-open on missing classifier.  With no classifier loaded, detection
returns `(benign, 0.0)` for every feature vector, and the attacks-detected
counter remains 0 over every run of the ingest loop. -/
theorem C4_fail_open (cfg : Config) (fw : String → Int) (hm : cfg.ml_model = none) :
    (∀ features, detect_intrusion cfg features = (false, 0)) ∧
    (∀ ms : List Msg,
      (runMessages cfg fw initState ms).packet_stats.attacks_detected = 0) := by
  have hdet : ∀ features, detect_intrusion cfg features = (false, 0) := by
    intro f
    simp [detect_intrusion, hm]
  have hstep : ∀ st m2, (on_message cfg fw st m2).packet_stats.attacks_detected =
      st.packet_stats.attacks_detected := by
    intro st m2
    simp only [on_message, hdet]
    repeat first | rfl | exact Bool.noConfusion ‹false = true› | split
  refine ⟨hdet, fun ms => ?_⟩
  suffices h : ∀ ms2 (st : IDSState),
      (runMessages cfg fw st ms2).packet_stats.attacks_detected =
        st.packet_stats.attacks_detected by
    rw [h ms initState]
    rfl
  intro ms2
  induction ms2 with
  | nil => intro st; rfl
  | cons m t ih =>
    intro st
    exact (ih (on_message cfg fw st m)).trans (hstep st m)

def cfgNoModel : Config := ⟨true, true, 1 / 2, none, none⟩

def sampleMsg : Msg := ⟨"sensors/temp", [1, 2, 3], 5⟩

theorem C4_fail_open_witness :
    cfgNoModel.ml_model = none ∧
    detect_intrusion cfgNoModel [1, 2, 3, 4, 5] = (false, 0) ∧
    (runMessages cfgNoModel (fun _ => 0) initState
        [sampleMsg]).packet_stats.attacks_detected = 0 :=
  ⟨rfl, (C4_fail_open cfgNoModel (fun _ => 0) rfl).1 _,
    (C4_fail_open cfgNoModel (fun _ => 0) rfl).2 _⟩

/-- C5: Block idempotence.  Starting from a state where S is not blocked and
with the firewall command succeeding, two successive block calls on S leave
exactly one entry for S in the blocked set, increment the blocked-count
statistic exactly once, and issue exactly one firewall deny command. -/
theorem C5_block_idempotent (st : IDSState) (S : String) (fw : String → Int)
    (hS : S ∉ st.blocked_ips) (hfw : fw S = 0) :
    (block_ip fw (block_ip fw st S).1 S).1.blocked_ips = insert S st.blocked_ips ∧
    S ∈ (block_ip fw (block_ip fw st S).1 S).1.blocked_ips ∧
    (block_ip fw (block_ip fw st S).1 S).1.packet_stats.ips_blocked =
      st.packet_stats.ips_blocked + 1 ∧
    (block_ip fw st S).2 + (block_ip fw (block_ip fw st S).1 S).2 = 1 := by
  have e1 : block_ip fw st S =
      (⟨{ st.packet_stats with ips_blocked := st.packet_stats.ips_blocked + 1 },
        insert S st.blocked_ips, st.last_packet_time, st.attack_log⟩, 1) := by
    rw [block_ip, if_neg hS, if_pos hfw]
  have e2 : block_ip fw (block_ip fw st S).1 S = ((block_ip fw st S).1, 0) := by
    rw [e1, block_ip, if_pos (Finset.mem_insert_self S st.blocked_ips)]
  rw [e2, e1]
  exact ⟨rfl, Finset.mem_insert_self S st.blocked_ips, rfl, rfl⟩

theorem C5_block_idempotent_witness :
    "10.0.0.9" ∉ initState.blocked_ips ∧ (fun _ : String => (0 : Int)) "10.0.0.9" = 0 ∧
    ((block_ip (fun _ => 0) (block_ip (fun _ => 0) initState "10.0.0.9").1
        "10.0.0.9").1.blocked_ips = insert "10.0.0.9" initState.blocked_ips ∧
      "10.0.0.9" ∈ (block_ip (fun _ => 0) (block_ip (fun _ => 0) initState "10.0.0.9").1
        "10.0.0.9").1.blocked_ips ∧
      (block_ip (fun _ => 0) (block_ip (fun _ => 0) initState "10.0.0.9").1
          "10.0.0.9").1.packet_stats.ips_blocked =
        initState.packet_stats.ips_blocked + 1 ∧
      (block_ip (fun _ => 0) initState "10.0.0.9").2 +
        (block_ip (fun _ => 0) (block_ip (fun _ => 0) initState "10.0.0.9").1
          "10.0.0.9").2 = 1) :=
  ⟨by simp [initState], rfl,
    C5_block_idempotent initState "10.0.0.9" (fun _ => 0) (by simp [initState]) rfl⟩

/-- C6: Missing-delimiter distinction.  Checksum verification of a plaintext
with no `|` delimiter reports integrity validity exactly unknown (`none`),
never `false`, with the whole string as the data; and a message whose
decryption yields such a plaintext does not increment the checksum-failures
counter. -/
theorem C6_missing_delimiter (s : List Byte) (cfg : Config) (fw : String → Int)
    (st : IDSState) (m : Msg) (d : List Byte) (hs : pipeByte ∉ s)
    (hdec : decrypt_aes m.payload = some d) (hd : pipeByte ∉ d) :
    verify_checksum s = (s, none) ∧
    (on_message cfg fw st m).packet_stats.checksum_failures =
      st.packet_stats.checksum_failures := by
  constructor
  · rw [verify_checksum, rsplitPipe_none s hs]
  · have hv : (verify_checksum d).2 = none := by
      rw [verify_checksum, rsplitPipe_none d hd]
    simp only [on_message, hdec, hv]
    simp only [ite_self]
    repeat first
      | rfl
      | exact Option.noConfusion ‹(none : Option Bool) = some false›
      | split

theorem C6_missing_delimiter_witness :
    pipeByte ∉ ([65, 66] : List Byte) ∧
    decrypt_aes (ecbEncryptBytes aesRoundKeys (pad16 [72, 105])) = some [72, 105] ∧
    pipeByte ∉ ([72, 105] : List Byte) ∧
    (verify_checksum [65, 66] = ([65, 66], none) ∧
      (on_message cfgNoModel (fun _ => 0) initState
          ⟨"t", ecbEncryptBytes aesRoundKeys (pad16 [72, 105]), 0⟩).packet_stats.checksum_failures =
        initState.packet_stats.checksum_failures) :=
  ⟨by decide, decrypt_aes_enc_pad [72, 105] (by decide), by decide,
    C6_missing_delimiter [65, 66] cfgNoModel (fun _ => 0) initState
      ⟨"t", ecbEncryptBytes aesRoundKeys (pad16 [72, 105]), 0⟩ [72, 105] (by decide)
      (decrypt_aes_enc_pad [72, 105] (by decide)) (by decide)⟩

/-- C7: Fixed feature order.  Extraction returns exactly the 5-element vector
[payload length, elapsed, flow-key length, 1/(elapsed + 0.001), payload length]
in exactly that order. -/
theorem C7_feature_order (topic : String) (payload_length : Nat) (time_delta : ℚ) :
    extract_features topic payload_length time_delta =
      [(payload_length : ℚ), time_delta, (topic.length : ℚ),
        1 / (time_delta + 1 / 1000), (payload_length : ℚ)] ∧
    (extract_features topic payload_length time_delta).length = 5 :=
  ⟨rfl, rfl⟩

/-- C8: Feature finiteness.  For every elapsed ≥ 0 (including 0) the rate
denominator elapsed + 0.001 is strictly positive, the rate feature is its true
reciprocal (certified by multiplying back to 1, so no division by zero occurs),
and hence no entry of the feature vector is a non-finite value. -/
theorem C8_finite_features (topic : String) (payload_length : Nat) (time_delta : ℚ)
    (h : 0 ≤ time_delta) :
    0 < time_delta + 1 / 1000 ∧
    (extract_features topic payload_length time_delta).get? 3 =
      some (1 / (time_delta + 1 / 1000)) ∧
    1 / (time_delta + 1 / 1000) * (time_delta + 1 / 1000) = 1 := by
  have hpos : 0 < time_delta + 1 / 1000 := by
    have h2 : (0 : ℚ) < 1 / 1000 := by norm_num
    linarith
  refine ⟨hpos, rfl, ?_⟩
  rw [one_div, inv_mul_cancel₀ (ne_of_gt hpos)]

theorem C8_finite_features_witness :
    (0 : ℚ) ≤ 0 ∧
    (0 < (0 : ℚ) + 1 / 1000 ∧
      (extract_features "sensors" 7 0).get? 3 = some (1 / ((0 : ℚ) + 1 / 1000)) ∧
      1 / ((0 : ℚ) + 1 / 1000) * ((0 : ℚ) + 1 / 1000) = 1) :=
  ⟨le_rfl, C8_finite_features "sensors" 7 0 le_rfl⟩

/-- C9: Enforcement is unreachable in the shipped pipeline.  Source-identifier
extraction returns `none` for every message, so in every state reachable by the
ingest loop from startup the blocked set is empty and the sources-blocked
counter is 0, while every attack-log entry carries an absent source marker. -/
theorem C9_enforcement_unreachable (cfg : Config) (fw : String → Int) (ms : List Msg) :
    (∀ m : Msg, extract_source_ip m = none) ∧
    (runMessages cfg fw initState ms).blocked_ips = ∅ ∧
    (runMessages cfg fw initState ms).packet_stats.ips_blocked = 0 ∧
    (∀ e ∈ (runMessages cfg fw initState ms).attack_log, e.source_ip = none) := by
  have key : ∀ ms2 (st : IDSState),
      (runMessages cfg fw st ms2).blocked_ips = st.blocked_ips ∧
      (runMessages cfg fw st ms2).packet_stats.ips_blocked =
        st.packet_stats.ips_blocked ∧
      (∀ e ∈ (runMessages cfg fw st ms2).attack_log,
        e ∈ st.attack_log ∨ e.source_ip = none) := by
    intro ms2
    induction ms2 with
    | nil => exact fun st => ⟨rfl, rfl, fun e he => Or.inl he⟩
    | cons m t ih =>
      intro st
      have hh := ih (on_message cfg fw st m)
      have hrw : runMessages cfg fw st (m :: t) =
          runMessages cfg fw (on_message cfg fw st m) t := rfl
      refine ⟨?_, ?_, ?_⟩
      · rw [hrw, hh.1, on_message_blocked_ips]
      · rw [hrw, hh.2.1, on_message_ips_blocked]
      · intro e he
        rw [hrw] at he
        rcases hh.2.2 e he with h1 | h1
        · exact on_message_log cfg fw st m e h1
        · exact Or.inr h1
  have hk := key ms initState
  refine ⟨fun m => rfl, hk.1, hk.2.1, fun e he => ?_⟩
  rcases hk.2.2 e he with h1 | h1
  · exact absurd h1 (by simp [initState])
  · exact h1

theorem C9_enforcement_unreachable_witness :
    (∀ m : Msg, extract_source_ip m = none) ∧
    (runMessages cfgNoModel (fun _ => 0) initState [sampleMsg]).blocked_ips = ∅ ∧
    (runMessages cfgNoModel (fun _ => 0) initState
        [sampleMsg]).packet_stats.ips_blocked = 0 ∧
    (∀ e ∈ (runMessages cfgNoModel (fun _ => 0) initState [sampleMsg]).attack_log,
      e.source_ip = none) :=
  C9_enforcement_unreachable cfgNoModel (fun _ => 0) [sampleMsg]

/-! ## Arbitrary interleavings of the gateway operations (for C10) -/

inductive GatewayOp where
  | msg : Msg → GatewayOp
  | block : String → GatewayOp
  | unblock : String → GatewayOp

def applyOp (cfg : Config) (fw : String → Int) (st : IDSState) : GatewayOp → IDSState
  | GatewayOp.msg m => on_message cfg fw st m
  | GatewayOp.block ip => (block_ip fw st ip).1
  | GatewayOp.unblock ip => (unblock_ip fw st ip).1

def runOps (cfg : Config) (fw : String → Int) (st : IDSState) (ops : List GatewayOp) :
    IDSState :=
  ops.foldl (applyOp cfg fw) st

theorem block_ip_counter_mono (fw : String → Int) (st : IDSState) (ip : String) :
    st.packet_stats.ips_blocked ≤ (block_ip fw st ip).1.packet_stats.ips_blocked := by
  rw [block_ip]
  split
  · exact le_rfl
  · split
    · simp
    · exact le_rfl

theorem unblock_ip_counter (fw : String → Int) (st : IDSState) (ip : String) :
    (unblock_ip fw st ip).1.packet_stats.ips_blocked = st.packet_stats.ips_blocked := by
  rw [unblock_ip]
  split <;> rfl

theorem block_ip_inv (fw : String → Int) (st : IDSState) (ip : String)
    (h : st.blocked_ips.card ≤ st.packet_stats.ips_blocked) :
    (block_ip fw st ip).1.blocked_ips.card ≤
      (block_ip fw st ip).1.packet_stats.ips_blocked := by
  rw [block_ip]
  split
  · exact h
  · split
    · simp only []
      calc (insert ip st.blocked_ips).card ≤ st.blocked_ips.card + 1 :=
            Finset.card_insert_le ip st.blocked_ips
        _ ≤ st.packet_stats.ips_blocked + 1 := by omega
    · exact h

theorem unblock_ip_inv (fw : String → Int) (st : IDSState) (ip : String)
    (h : st.blocked_ips.card ≤ st.packet_stats.ips_blocked) :
    (unblock_ip fw st ip).1.blocked_ips.card ≤
      (unblock_ip fw st ip).1.packet_stats.ips_blocked := by
  rw [unblock_ip]
  split
  · simp only []
    calc (st.blocked_ips.erase ip).card ≤ st.blocked_ips.card :=
          Finset.card_erase_le
      _ ≤ st.packet_stats.ips_blocked := h
  · exact h

theorem applyOp_inv (cfg : Config) (fw : String → Int) (st : IDSState) (op : GatewayOp)
    (h : st.blocked_ips.card ≤ st.packet_stats.ips_blocked) :
    (applyOp cfg fw st op).blocked_ips.card ≤
      (applyOp cfg fw st op).packet_stats.ips_blocked := by
  cases op with
  | msg m => rw [applyOp, on_message_blocked_ips, on_message_ips_blocked]; exact h
  | block ip => exact block_ip_inv fw st ip h
  | unblock ip => exact unblock_ip_inv fw st ip h

/-- C10: Blocked-count monotonicity.  In every state reachable from startup by
any interleaving of message processing, block and unblock operations, the size
of the blocked set is at most the sources-blocked counter; the counter is never
decremented by any operation (unblock leaves it unchanged while removing the
source), and a successful unblock of a currently blocked source makes the
inequality strict. -/
theorem C10_blocked_count_monotone (cfg : Config) (fw : String → Int) :
    (∀ ops, (runOps cfg fw initState ops).blocked_ips.card ≤
      (runOps cfg fw initState ops).packet_stats.ips_blocked) ∧
    (∀ (st : IDSState) (op : GatewayOp),
      st.packet_stats.ips_blocked ≤ (applyOp cfg fw st op).packet_stats.ips_blocked) ∧
    (∀ (st : IDSState) (ip : String),
      (unblock_ip fw st ip).1.packet_stats.ips_blocked = st.packet_stats.ips_blocked) ∧
    (∀ (st : IDSState) (ip : String),
      st.blocked_ips.card ≤ st.packet_stats.ips_blocked → ip ∈ st.blocked_ips →
      fw ip = 0 →
      (unblock_ip fw st ip).1.blocked_ips.card <
        (unblock_ip fw st ip).1.packet_stats.ips_blocked) := by
  refine ⟨?_, ?_, ?_, ?_⟩
  · intro ops
    suffices h : ∀ ops2 (st : IDSState),
        st.blocked_ips.card ≤ st.packet_stats.ips_blocked →
        (runOps cfg fw st ops2).blocked_ips.card ≤
          (runOps cfg fw st ops2).packet_stats.ips_blocked by
      exact h ops initState (by simp [initState])
    intro ops2
    induction ops2 with
    | nil => exact fun st h => h
    | cons op t ih => exact fun st h => ih (applyOp cfg fw st op) (applyOp_inv cfg fw st op h)
  · intro st op
    cases op with
    | msg m => rw [applyOp, on_message_ips_blocked]
    | block ip => exact block_ip_counter_mono fw st ip
    | unblock ip => rw [applyOp, unblock_ip_counter]
  · intro st ip
    exact unblock_ip_counter fw st ip
  · intro st ip hinv hmem hfw
    rw [unblock_ip, if_pos hfw]
    simp only []
    rw [Finset.card_erase_of_mem hmem]
    have hpos : 0 < st.blocked_ips.card := Finset.card_pos.mpr ⟨ip, hmem⟩
    omega

/-- A state with one blocked source already accounted for in the counter. -/
def stOneBlocked : IDSState := ⟨⟨3, 1, 1, 0⟩, {"10.0.0.5"}, [], []⟩

theorem C10_blocked_count_monotone_witness :
    (runOps cfgNoModel (fun _ => 0) initState
        [GatewayOp.block "a", GatewayOp.unblock "a"]).blocked_ips.card ≤
      (runOps cfgNoModel (fun _ => 0) initState
        [GatewayOp.block "a", GatewayOp.unblock "a"]).packet_stats.ips_blocked ∧
    stOneBlocked.packet_stats.ips_blocked ≤
      (applyOp cfgNoModel (fun _ => 0) stOneBlocked (GatewayOp.block "b")).packet_stats.ips_blocked ∧
    (unblock_ip (fun _ => 0) stOneBlocked "10.0.0.5").1.packet_stats.ips_blocked =
      stOneBlocked.packet_stats.ips_blocked ∧
    (stOneBlocked.blocked_ips.card ≤ stOneBlocked.packet_stats.ips_blocked ∧
      "10.0.0.5" ∈ stOneBlocked.blocked_ips ∧
      (unblock_ip (fun _ => 0) stOneBlocked "10.0.0.5").1.blocked_ips.card <
        (unblock_ip (fun _ => 0) stOneBlocked "10.0.0.5").1.packet_stats.ips_blocked) :=
  ⟨(C10_blocked_count_monotone cfgNoModel (fun _ => 0)).1 _,
    (C10_blocked_count_monotone cfgNoModel (fun _ => 0)).2.1 _ _,
    (C10_blocked_count_monotone cfgNoModel (fun _ => 0)).2.2.1 _ _,
    by simp [stOneBlocked],
    by simp [stOneBlocked],
    (C10_blocked_count_monotone cfgNoModel (fun _ => 0)).2.2.2 stOneBlocked "10.0.0.5"
      (by simp [stOneBlocked]) (by simp [stOneBlocked]) rfl⟩
